import Mathlib

/-!
Shallow embedding of the green-thread runtime in `src/main.rs`
(`skanehira/example-greenthreads`): the scheduler state machine
(`Runtime::new`, `t_yield`, `t_return`, `spawn`, `run`), the stack-frame
layout written by `spawn`, and a word-level model of the `switch`
assembly primitive together with the `#[repr(C)]` layout of
`ThreadContext`.  Machine integers (`usize`, `u64`) are modelled as `Nat`;
pointer values are abstract `Nat` addresses.  The physical transfer of
control performed by `switch` is recorded as an event `(old_pos, pos)`
returned next to the updated scheduler state; `switch` itself is modelled
separately at the machine level (`switchRun`).
-/

namespace GreenThreads

/-- `const DEFAULT_STACK_SIZE: usize = 1024 * 1024 * 2`. -/
def DEFAULT_STACK_SIZE : Nat := 1024 * 1024 * 2

/-- `const MAX_THREADS: usize = 4`. -/
def MAX_THREADS : Nat := 4

/-- `enum State { Available, Running, Ready }`. -/
inductive State where
  | Available : State
  | Running : State
  | Ready : State
deriving DecidableEq, Repr, Fintype

/-- `#[repr(C)] struct ThreadContext { rsp, r15, r14, r13, r12, rbx, rbp: u64 }`.
Each field is a 64-bit word, modelled as `Nat`. -/
structure ThreadContext where
  rsp : Nat
  r15 : Nat
  r14 : Nat
  r13 : Nat
  r12 : Nat
  rbx : Nat
  rbp : Nat
deriving DecidableEq, Repr

/-- `ThreadContext::default()`: all registers zero. -/
def ThreadContext.zero : ThreadContext :=
  { rsp := 0, r15 := 0, r14 := 0, r13 := 0, r12 := 0, rbx := 0, rbp := 0 }

/-- `struct Thread { id, stack: Vec<u8>, ctx, state }`.  The 2 MiB stack
buffer is modelled by its (abstract) base address, its length, and the list
of 64-bit words written into it (address, value), most recent first; the
buffer contents are never read by the scheduler itself. -/
structure Thread where
  id : Nat
  stackBase : Nat
  stackSize : Nat
  stackWrites : List (Nat × Nat)
  ctx : ThreadContext
  state : State
deriving DecidableEq, Repr

/-- Default element for out-of-range `List.getD` reads of the thread pool
(the Rust code would panic on such an index; all verified accesses are in
range). -/
def dummyThread : Thread :=
  { id := 0, stackBase := 0, stackSize := 0, stackWrites := [],
    ctx := ThreadContext.zero, state := State.Available }

/-- `Thread::new(id)`: an `Available` thread with a freshly allocated
`DEFAULT_STACK_SIZE` stack (at abstract base address `base`) and a default
(zero) context. -/
def Thread.new (id : Nat) (base : Nat) : Thread :=
  { id := id, stackBase := base, stackSize := DEFAULT_STACK_SIZE,
    stackWrites := [], ctx := ThreadContext.zero, state := State.Available }

/-- `struct Runtime { threads: Vec<Thread>, current: usize }`. -/
structure Runtime where
  threads : List Thread
  current : Nat
deriving DecidableEq, Repr

/-- `Runtime::new()`: `base_thread` (id 0, `Running`, default context) followed
by `(1..MAX_THREADS).map(Thread::new)`, all `Available`; `current = 0`.
`bases` assigns each slot the (abstract) address of its stack allocation. -/
def Runtime.new (bases : Nat → Nat) : Runtime :=
  { threads :=
      { id := 0, stackBase := bases 0, stackSize := DEFAULT_STACK_SIZE,
        stackWrites := [], ctx := ThreadContext.zero,
        state := State.Running } ::
      (List.range' 1 (MAX_THREADS - 1)).map (fun i => Thread.new i (bases i)),
    current := 0 }

/-- The `while self.threads[pos].state != State::Ready` search loop of
`t_yield`, with explicit fuel (the loop visits at most `states.length`
positions before returning to `cur`): check `pos`; if not `Ready`,
increment, wrap at `states.length`, and give up upon returning to `cur`. -/
def scanReadyAux (states : List State) (cur : Nat) : Nat → Nat → Option Nat
  | _, 0 => none
  | pos, fuel + 1 =>
    if states.getD pos State.Available = State.Ready then some pos
    else
      if (if pos + 1 = states.length then 0 else pos + 1) = cur then none
      else
        scanReadyAux states cur
          (if pos + 1 = states.length then 0 else pos + 1) fuel

/-- The search loop of `t_yield` started at `pos = self.current` (as in the
source) with sufficient fuel. -/
def scanReady (states : List State) (cur : Nat) : Option Nat :=
  scanReadyAux states cur cur states.length

/-- The lifecycle states of the pool, in slot order. -/
def statesOf (rt : Runtime) : List State :=
  rt.threads.map Thread.state

/-- The lifecycle state of slot `i`. -/
def stateAt (rt : Runtime) (i : Nat) : State :=
  (rt.threads.getD i dummyThread).state

/-- Replace the lifecycle state of a thread record. -/
def setState (t : Thread) (s : State) : Thread :=
  { t with state := s }

/-- `Runtime::t_yield`: scan for a `Ready` slot starting at `current`
(returning `false` with no change when the scan wraps back to `current`);
otherwise demote the current slot to `Ready` unless it is `Available`,
promote the found slot to `Running`, move `current` there, and invoke
`switch(&mut threads[old_pos].ctx, &threads[pos].ctx)`.  The result is
`(returned bool, updated runtime, switch event (old_pos, pos))`; the
physical register/stack transfer performed by `switch` is modelled at the
machine level by `switchRun` below. -/
def t_yield (rt : Runtime) : Bool × Runtime × Option (Nat × Nat) :=
  match scanReady (statesOf rt) rt.current with
  | none => (false, rt, none)
  | some pos =>
    let threads1 :=
      if (rt.threads.getD rt.current dummyThread).state ≠ State.Available then
        rt.threads.set rt.current
          (setState (rt.threads.getD rt.current dummyThread) State.Ready)
      else rt.threads
    let threads2 :=
      threads1.set pos (setState (threads1.getD pos dummyThread) State.Running)
    let rt' : Runtime := { threads := threads2, current := pos }
    (decide (rt'.threads.length > 0), rt', some (rt.current, pos))

/-- `Runtime::t_return` (reached from `guard` when a task body returns): if
`current != 0`, mark the current slot `Available` and reschedule via
`t_yield`.  Returns the updated runtime and the switch event, if any. -/
def t_return (rt : Runtime) : Runtime × Option (Nat × Nat) :=
  if rt.current ≠ 0 then
    let threadsA :=
      rt.threads.set rt.current
        (setState (rt.threads.getD rt.current dummyThread) State.Available)
    let rtA : Runtime := { rt with threads := threadsA }
    let r := t_yield rtA
    (r.2.1, r.2.2)
  else (rt, none)

/-- Position of the first `Available` thread, i.e.
`threads.iter_mut().find(|t| t.state == State::Available)` in `spawn`. -/
def findAvailIdx : List Thread → Option Nat
  | [] => none
  | t :: ts =>
    if t.state = State.Available then some 0
    else (findAvailIdx ts).map (· + 1)

/-- `(s_ptr as usize & !15)`: clear the low four bits, i.e. round the
address down to the 16-byte boundary (for `s < 2^64` this is `s - s % 16`). -/
def align16 (s : Nat) : Nat := s - s % 16

/-- The selected thread after the `unsafe` block of `Runtime::spawn`:
with `s_ptr = align16 (stack base + stack len)`, write `guard` at
`s_ptr - 16`, `skip` at `s_ptr - 24`, the task address `f` at `s_ptr - 32`,
set the saved `rsp` to `s_ptr - 32`, and mark the slot `Ready`.  `guardA`
and `skipA` are the (abstract) code addresses of `guard` and `skip`. -/
def spawnFrame (guardA skipA f : Nat) (t : Thread) : Thread :=
  { t with
    stackWrites :=
      [(align16 (t.stackBase + t.stackSize) - 16, guardA),
       (align16 (t.stackBase + t.stackSize) - 24, skipA),
       (align16 (t.stackBase + t.stackSize) - 32, f)] ++ t.stackWrites,
    ctx := { t.ctx with rsp := align16 (t.stackBase + t.stackSize) - 32 },
    state := State.Ready }

/-- `Runtime::spawn(f)`: find the first `Available` slot (`None` models the
`expect("not available thread.")` panic, which occurs before any mutation),
then lay out the initial stack frame (`spawnFrame`).  No execution of `f`
occurs. -/
def spawn (guardA skipA : Nat) (rt : Runtime) (f : Nat) : Option Runtime :=
  match findAvailIdx rt.threads with
  | none => none
  | some i =>
    some { rt with threads := rt.threads.set i (spawnFrame guardA skipA f (rt.threads.getD i dummyThread)) }

/-- `spawn` with the (unreachable under the verified preconditions) panic
branch defaulting to the unchanged runtime; test-scaffolding convenience. -/
def spawnD (guardA skipA : Nat) (rt : Runtime) (f : Nat) : Runtime :=
  (spawn guardA skipA rt f).getD rt

/-- `Runtime::run`: `while self.t_yield() {}; std::process::exit(0)`, with
fuel; returns `(exit code, final runtime)` when the loop terminates within
`fuel` iterations of the logical thread running `run` (slot 0). -/
def runLoop : Nat → Runtime → Option (Nat × Runtime)
  | 0, _ => none
  | fuel + 1, rt =>
    match t_yield rt with
    | (true, rt', _) => runLoop fuel rt'
    | (false, rt', _) => some (0, rt')

/-- Whole-system simulation of the property-P1 scenario: every spawned task
returns immediately, without yielding.  Control always resides at slot
`rt.current`: slot 0 executes the `run()` loop (call `t_yield`; on `false`,
`exit(0)`), and any other slot is a freshly entered task that returns at
once, so `guard` runs `t_return`.  Each execution of the `switch` primitive
is counted; the result is `(exit code, number of switches)`.  `none` means
fuel ran out, or a finished task had nowhere to switch to (which would make
`guard` return into an invalid frame; unreachable in the scenario). -/
def simRun : Nat → Runtime → Nat → Option (Nat × Nat)
  | 0, _, _ => none
  | fuel + 1, rt, k =>
    if rt.current = 0 then
      match t_yield rt with
      | (_, rt', some _) => simRun fuel rt' (k + 1)
      | (_, _, none) => some (0, k)
    else
      match t_return rt with
      | (rt', some _) => simRun fuel rt' (k + 1)
      | (_, none) => none

/-- The registers handled by `switch`: the stack pointer and the six
callee-saved general registers. -/
inductive Reg where
  | rsp : Reg
  | r15 : Reg
  | r14 : Reg
  | r13 : Reg
  | r12 : Reg
  | rbx : Reg
  | rbp : Reg
deriving DecidableEq, Repr, Fintype

/-- The fields of `ThreadContext` in declaration order. -/
def ctxFieldOrder : List Reg :=
  [Reg.rsp, Reg.r15, Reg.r14, Reg.r13, Reg.r12, Reg.rbx, Reg.rbp]

/-- Projection of a `ThreadContext` field named by a register. -/
def ctxGet (c : ThreadContext) : Reg → Nat
  | Reg.rsp => c.rsp
  | Reg.r15 => c.r15
  | Reg.r14 => c.r14
  | Reg.r13 => c.r13
  | Reg.r12 => c.r12
  | Reg.rbx => c.rbx
  | Reg.rbp => c.rbp

/-- The `#[repr(C)]` byte offset of each `ThreadContext` field: seven `u64`
fields in declaration order, so field `i` lives at offset `8 * i`. -/
def ctxOffset : Reg → Nat
  | Reg.rsp => 0x00
  | Reg.r15 => 0x08
  | Reg.r14 => 0x10
  | Reg.r13 => 0x18
  | Reg.r12 => 0x20
  | Reg.rbx => 0x28
  | Reg.rbp => 0x30

/-- The store half of the `switch` assembly, transcribed instruction by
instruction: `mov [rdi + off], reg`. -/
def switchSaveList : List (Nat × Reg) :=
  [(0x00, Reg.rsp), (0x08, Reg.r15), (0x10, Reg.r14), (0x18, Reg.r13),
   (0x20, Reg.r12), (0x28, Reg.rbx), (0x30, Reg.rbp)]

/-- The load half of the `switch` assembly, transcribed instruction by
instruction: `mov reg, [rsi + off]`. -/
def switchRestoreList : List (Nat × Reg) :=
  [(0x00, Reg.rsp), (0x08, Reg.r15), (0x10, Reg.r14), (0x18, Reg.r13),
   (0x20, Reg.r12), (0x28, Reg.rbx), (0x30, Reg.rbp)]

/-- Write the 64-bit word `v` at byte address `addr` of a word-addressed
memory. -/
def writeWord (mem : Nat → Nat) (addr v : Nat) : Nat → Nat :=
  fun a => if a = addr then v else mem a

/-- Word-level semantics of the naked `switch` function: execute the stores
of `switchSaveList` into the outgoing snapshot at `rdi`, load every
register from the incoming snapshot at `rsi` (the offsets transcribed from
the load instructions), then execute `ret`: pop the word at the top of the
restored stack and jump to it.  Result: `(registers after the ret, memory,
jump target)`. -/
def switchRun (regs : ThreadContext) (mem : Nat → Nat) (rdi rsi : Nat) :
    ThreadContext × (Nat → Nat) × Nat :=
  let mem1 := switchSaveList.foldl
    (fun mm p => writeWord mm (rdi + p.1) (ctxGet regs p.2)) mem
  let regs1 : ThreadContext :=
    { rsp := mem1 (rsi + 0x00), r15 := mem1 (rsi + 0x08),
      r14 := mem1 (rsi + 0x10), r13 := mem1 (rsi + 0x18),
      r12 := mem1 (rsi + 0x20), rbx := mem1 (rsi + 0x28),
      rbp := mem1 (rsi + 0x30) }
  let target := mem1 regs1.rsp
  ({ regs1 with rsp := regs1.rsp + 8 }, mem1, target)

/-- Atomic steps of the scheduler state machine, as observed between
operations: a successful `spawn`, a `t_yield` (from `run` or
`yield_thread`), or a `t_return` (from `guard`, i.e. task completion). -/
inductive Step : Runtime → Runtime → Prop
  | spawnStep (rt : Runtime) (ga sk f : Nat) (rt' : Runtime) :
      spawn ga sk rt f = some rt' → Step rt rt'
  | yieldStep (rt : Runtime) : Step rt (t_yield rt).2.1
  | returnStep (rt : Runtime) : Step rt (t_return rt).1

/-- States reachable from `Runtime::new()` by any sequence of operations. -/
def Reachable (bases : Nat → Nat) (rt : Runtime) : Prop :=
  Relation.ReflTransGen Step (Runtime.new bases) rt

/-- Modelled from the spec (refinement comparison for claim C1): starting
just past the current slot index, scan circularly for the first `Ready`
slot, giving up when the scan would return to the current index; the
candidates are therefore `cur + 1, …, cur + n - 1` modulo `n`. -/
def scanJustPastSpec (states : List State) (cur : Nat) : Option Nat :=
  ((List.range (states.length - 1)).map
      (fun k => (cur + 1 + k) % states.length)).find?
    (fun i => states.getD i State.Available == State.Ready)

/-! ### List helpers -/

theorem getD_set_self {α : Type _} (l : List α) (i : Nat) (a d : α)
    (h : i < l.length) : (l.set i a).getD i d = a := by
  simp [List.getD_eq_getElem?_getD, List.getElem?_set_self h]

theorem getD_set_ne {α : Type _} (l : List α) {i j : Nat} (a d : α)
    (h : i ≠ j) : (l.set i a).getD j d = l.getD j d := by
  simp [List.getD_eq_getElem?_getD, List.getElem?_set_ne h]

theorem exists_four {α : Type _} :
    ∀ (l : List α), l.length = 4 → ∃ a b c d : α, l = [a, b, c, d]
  | [a, b, c, d], _ => ⟨a, b, c, d, rfl⟩
  | [], h => by simp at h
  | [_], h => by simp at h
  | [_, _], h => by simp at h
  | [_, _, _], h => by simp at h
  | _ :: _ :: _ :: _ :: _ :: _, h => by simp at h

theorem stateAt_eq (rt : Runtime) (i : Nat) :
    stateAt rt i = (statesOf rt).getD i State.Available := by
  unfold stateAt statesOf
  rw [List.getD_eq_getElem?_getD, List.getD_eq_getElem?_getD, List.getElem?_map]
  cases rt.threads[i]? with
  | none => rfl
  | some t => rfl

theorem length_statesOf (rt : Runtime) :
    (statesOf rt).length = rt.threads.length := by
  simp [statesOf]

/-! ### The `t_yield` search loop -/

theorem scanReadyAux_some_ready (states : List State) (cur : Nat) :
    ∀ (fuel pos p : Nat), scanReadyAux states cur pos fuel = some p →
      states.getD p State.Available = State.Ready := by
  intro fuel
  induction fuel with
  | zero => intro pos p h; simp [scanReadyAux] at h
  | succ n ih =>
    intro pos p h
    unfold scanReadyAux at h
    split at h
    · next hr => cases h; exact hr
    · by_cases h2 : (if pos + 1 = states.length then 0 else pos + 1) = cur
      · rw [if_pos h2] at h
        exact absurd h (by simp)
      · rw [if_neg h2] at h
        exact ih _ _ h

theorem scanReady_some_ready {states : List State} {cur p : Nat}
    (h : scanReady states cur = some p) :
    states.getD p State.Available = State.Ready :=
  scanReadyAux_some_ready states cur _ _ _ h

theorem scanReady_some_lt {states : List State} {cur p : Nat}
    (h : scanReady states cur = some p) : p < states.length := by
  by_contra hge
  have hr := scanReady_some_ready h
  rw [List.getD_eq_default _ _ (Nat.le_of_not_lt hge)] at hr
  exact absurd hr (by decide)

/-- On the fixed pool size 4, the search loop of `t_yield` (started at the
current index, as in the source) agrees with the spec-described scan that
starts just past the current index, provided the current slot is not
`Ready` — which holds at every invocation site: `Running` when called from
`run`/`yield_thread`, `Available` when called from `t_return`. -/
theorem scanReady_eq_spec4 :
    ∀ (s0 s1 s2 s3 : State) (c : Fin 4),
      [s0, s1, s2, s3].getD c.val State.Available ≠ State.Ready →
      scanReady [s0, s1, s2, s3] c.val =
        scanJustPastSpec [s0, s1, s2, s3] c.val := by
  decide

/-- On the fixed pool size 4, the search loop reports failure exactly when
no slot at all is `Ready` (the loop examines the current index first and
every other index before wrapping). -/
theorem scanReady_none_iff4 :
    ∀ (s0 s1 s2 s3 : State) (c : Fin 4),
      scanReady [s0, s1, s2, s3] c.val = none ↔
        ∀ i : Fin 4,
          [s0, s1, s2, s3].getD i.val State.Available ≠ State.Ready := by
  decide

/-! ### `findAvailIdx` -/

theorem findAvailIdx_spec :
    ∀ (l : List Thread) (i : Nat), findAvailIdx l = some i →
      i < l.length ∧ (l.getD i dummyThread).state = State.Available ∧
        ∀ j, j < i → (l.getD j dummyThread).state ≠ State.Available := by
  intro l
  induction l with
  | nil => intro i h; simp [findAvailIdx] at h
  | cons t ts ih =>
    intro i h
    unfold findAvailIdx at h
    by_cases ht : t.state = State.Available
    · rw [if_pos ht] at h
      cases h
      exact ⟨by simp, by simpa using ht, by intro j hj; omega⟩
    · rw [if_neg ht] at h
      obtain ⟨i', hi', rfl⟩ := Option.map_eq_some'.mp h
      obtain ⟨hlt, hst, hmin⟩ := ih i' hi'
      refine ⟨by simp; omega, by simpa using hst, ?_⟩
      intro j hj
      cases j with
      | zero => simpa using ht
      | succ j => simpa using hmin j (by omega)

theorem findAvailIdx_eq_none {l : List Thread}
    (h : ∀ t ∈ l, t.state ≠ State.Available) : findAvailIdx l = none := by
  induction l with
  | nil => rfl
  | cons t ts ih =>
    unfold findAvailIdx
    rw [if_neg (h t (by simp)), ih (fun u hu => h u (by simp [hu]))]
    rfl

/-! ### Unfolding `t_yield` -/

theorem t_yield_none {rt : Runtime}
    (h : scanReady (statesOf rt) rt.current = none) :
    t_yield rt = (false, rt, none) := by
  simp [t_yield, h]

theorem t_yield_found (rt : Runtime) (pos : Nat)
    (h : scanReady (statesOf rt) rt.current = some pos) :
    (t_yield rt).2.1.threads =
      (if (rt.threads.getD rt.current dummyThread).state ≠ State.Available then
        rt.threads.set rt.current
          (setState (rt.threads.getD rt.current dummyThread) State.Ready)
      else rt.threads).set pos
        (setState
          ((if (rt.threads.getD rt.current dummyThread).state ≠
                State.Available then
              rt.threads.set rt.current
                (setState (rt.threads.getD rt.current dummyThread) State.Ready)
            else rt.threads).getD pos dummyThread) State.Running) ∧
      (t_yield rt).2.1.current = pos ∧
      (t_yield rt).1 = decide (0 < (t_yield rt).2.1.threads.length) ∧
      (t_yield rt).2.2 = some (rt.current, pos) := by
  simp [t_yield, h]

theorem t_yield_wf (rt : Runtime) (h4 : rt.threads.length = 4)
    (hc : rt.current < 4) :
    (t_yield rt).2.1.threads.length = 4 ∧ (t_yield rt).2.1.current < 4 := by
  cases hscan : scanReady (statesOf rt) rt.current with
  | none => rw [t_yield_none hscan]; exact ⟨h4, hc⟩
  | some pos =>
    obtain ⟨hthreads, hcur, _, _⟩ := t_yield_found rt pos hscan
    have hplt : pos < 4 := by
      have h := scanReady_some_lt hscan
      rwa [length_statesOf, h4] at h
    constructor
    · rw [hthreads, List.length_set]
      split <;> simp [h4]
    · rw [hcur]; exact hplt

/-- The value returned by `t_yield` is `false` exactly when no slot at all
is `Ready` (the search loop starts at the current index and examines every
slot before giving up). -/
theorem t_yield_false_iff (rt : Runtime) (h4 : rt.threads.length = 4)
    (hc : rt.current < 4) :
    (t_yield rt).1 = false ↔
      ∀ i, i < rt.threads.length → stateAt rt i ≠ State.Ready := by
  obtain ⟨t0, t1, t2, t3, ht⟩ := exists_four rt.threads h4
  have hs : statesOf rt = [t0.state, t1.state, t2.state, t3.state] := by
    rw [statesOf, ht]; rfl
  cases hscan : scanReady (statesOf rt) rt.current with
  | none =>
    rw [t_yield_none hscan]
    constructor
    · intro _ i hi hR
      have hiff :=
        (scanReady_none_iff4 t0.state t1.state t2.state t3.state
          ⟨rt.current, hc⟩).mp (by rw [← hs]; exact hscan)
      have hi4 : i < 4 := by rwa [h4] at hi
      apply hiff ⟨i, hi4⟩
      rw [← hs, ← stateAt_eq]
      exact hR
    · intro _; rfl
  | some pos =>
    obtain ⟨hthreads, hcur, hbool, _⟩ := t_yield_found rt pos hscan
    have hplt : pos < rt.threads.length := by
      have h := scanReady_some_lt hscan
      rwa [length_statesOf] at h
    have hpR : stateAt rt pos = State.Ready := by
      rw [stateAt_eq]; exact scanReady_some_ready hscan
    constructor
    · intro hfalse
      rw [hbool, (t_yield_wf rt h4 hc).1] at hfalse
      simp at hfalse
    · intro hall
      exact absurd hpR (hall pos hplt)

theorem t_yield_false_eq (rt : Runtime) (h4 : rt.threads.length = 4)
    (hc : rt.current < 4) (hf : (t_yield rt).1 = false) :
    t_yield rt = (false, rt, none) := by
  cases hscan : scanReady (statesOf rt) rt.current with
  | none => exact t_yield_none hscan
  | some pos =>
    obtain ⟨_, _, hbool, _⟩ := t_yield_found rt pos hscan
    rw [hbool, (t_yield_wf rt h4 hc).1] at hf
    simp at hf

/-! ### The unique-`Running` invariant -/

/-- Scheduler invariant: the pool has its fixed size, the current index is
in range, `Running` occurs exactly at the current index, and slot 0 (the
caller context) is never `Available`. -/
@[reducible] def Inv (rt : Runtime) : Prop :=
  rt.threads.length = 4 ∧ rt.current < 4 ∧
    (∀ i, i < 4 → (stateAt rt i = State.Running ↔ i = rt.current)) ∧
    stateAt rt 0 ≠ State.Available

theorem inv_new (bases : Nat → Nat) : Inv (Runtime.new bases) := by
  have hr : List.range' 1 (MAX_THREADS - 1) = [1, 2, 3] := by decide
  unfold Inv
  refine ⟨?_, ?_, ?_, ?_⟩
  · simp [Runtime.new, hr]
  · simp [Runtime.new]
  · intro i hi
    interval_cases i <;>
      simp [Runtime.new, hr, stateAt, Thread.new]
  · simp [Runtime.new, stateAt]

/-- Promoting the slot found by the search to `Running` yields a pool in
which `Running` occurs exactly at that slot, provided the intermediate pool
had no `Running` slot outside it and its slot 0 was not `Available`
(unless slot 0 is the promoted slot itself). -/
theorem inv_core_aux (threads1 : List Thread) (pos : Nat)
    (h1len : threads1.length = 4) (hplt : pos < 4)
    (hnotrun : ∀ i, i < 4 → i ≠ pos →
      (threads1.getD i dummyThread).state ≠ State.Running)
    (h0or : (threads1.getD 0 dummyThread).state ≠ State.Available ∨ pos = 0) :
    ((threads1.set pos
        (setState (threads1.getD pos dummyThread) State.Running)).length = 4) ∧
      (∀ i, i < 4 →
        (((threads1.set pos
            (setState (threads1.getD pos dummyThread)
              State.Running)).getD i dummyThread).state = State.Running ↔
          i = pos)) ∧
      ((threads1.set pos
          (setState (threads1.getD pos dummyThread)
            State.Running)).getD 0 dummyThread).state ≠ State.Available := by
  have hpos1 : pos < threads1.length := by rwa [h1len]
  refine ⟨by simp [List.length_set, h1len], ?_, ?_⟩
  · intro i hi
    by_cases hip : i = pos
    · subst hip
      rw [getD_set_self _ _ _ _ hpos1]
      simp [setState]
    · rw [getD_set_ne _ _ _ (fun h => hip h.symm)]
      simp only [hip, iff_false]
      exact hnotrun i hi hip
  · by_cases h0p : 0 = pos
    · rw [h0p, getD_set_self _ _ _ _ hpos1]
      simp [setState]
    · rw [getD_set_ne _ _ _ (fun h => h0p h.symm)]
      rcases h0or with h0 | hp0
      · exact h0
      · exact absurd hp0.symm h0p

/-- Core preservation: when the search of `t_yield` finds a slot, the
resulting pool satisfies the unique-`Running` description at the found
slot.  Requires only that `Running` occurred at most at the current index
and that slot 0 was not `Available` before the call. -/
theorem inv_yield_core (rt : Runtime)
    (h4 : rt.threads.length = 4) (hc : rt.current < 4)
    (huniq : ∀ i, i < 4 → stateAt rt i = State.Running → i = rt.current)
    (h0 : stateAt rt 0 ≠ State.Available)
    {pos : Nat} (hscan : scanReady (statesOf rt) rt.current = some pos) :
    (t_yield rt).2.1.threads.length = 4 ∧
      (t_yield rt).2.1.current = pos ∧ pos < 4 ∧
      (∀ i, i < 4 →
        (stateAt (t_yield rt).2.1 i = State.Running ↔ i = pos)) ∧
      stateAt (t_yield rt).2.1 0 ≠ State.Available := by
  obtain ⟨hthreads, hcur, _, _⟩ := t_yield_found rt pos hscan
  have hplt : pos < 4 := by
    have h := scanReady_some_lt hscan
    rwa [length_statesOf, h4] at h
  have hclen : rt.current < rt.threads.length := by rwa [h4]
  by_cases hAvail :
      (rt.threads.getD rt.current dummyThread).state = State.Available
  · -- the current slot is `Available`: the demotion is skipped
    have ht1 :
        (if (rt.threads.getD rt.current dummyThread).state ≠
            State.Available then
          rt.threads.set rt.current
            (setState (rt.threads.getD rt.current dummyThread) State.Ready)
        else rt.threads) = rt.threads := by
      rw [if_neg (not_not_intro hAvail)]
    rw [ht1] at hthreads
    have hcore := inv_core_aux rt.threads pos h4 hplt
      (fun i hi hip hrun => by
        have hieq := huniq i hi hrun
        rw [hieq, hAvail] at hrun
        exact State.noConfusion hrun)
      (Or.inl h0)
    refine ⟨by rw [hthreads]; exact hcore.1, hcur, hplt, ?_, ?_⟩
    · intro i hi
      rw [show stateAt (t_yield rt).2.1 i =
          (((t_yield rt).2.1.threads).getD i dummyThread).state from rfl,
        hthreads]
      exact hcore.2.1 i hi
    · rw [show stateAt (t_yield rt).2.1 0 =
          (((t_yield rt).2.1.threads).getD 0 dummyThread).state from rfl,
        hthreads]
      exact hcore.2.2
  · -- the current slot is demoted to `Ready`
    have ht1 :
        (if (rt.threads.getD rt.current dummyThread).state ≠
            State.Available then
          rt.threads.set rt.current
            (setState (rt.threads.getD rt.current dummyThread) State.Ready)
        else rt.threads) =
          rt.threads.set rt.current
            (setState (rt.threads.getD rt.current dummyThread)
              State.Ready) := by
      rw [if_pos hAvail]
    rw [ht1] at hthreads
    have h1len :
        (rt.threads.set rt.current
          (setState (rt.threads.getD rt.current dummyThread)
            State.Ready)).length = 4 := by
      simp [List.length_set, h4]
    have hcore := inv_core_aux
      (rt.threads.set rt.current
        (setState (rt.threads.getD rt.current dummyThread) State.Ready))
      pos h1len hplt
      (fun i hi hip => by
        by_cases hic : i = rt.current
        · subst hic
          rw [getD_set_self _ _ _ _ hclen]
          simp [setState]
        · rw [getD_set_ne _ _ _ (fun h => hic h.symm)]
          intro hrun
          exact hic (huniq i hi hrun))
      (by
        by_cases h0c : 0 = rt.current
        · left
          rw [h0c, getD_set_self _ _ _ _ hclen]
          simp [setState]
        · left
          rw [getD_set_ne _ _ _ (fun h => h0c h.symm)]
          exact h0)
    refine ⟨by rw [hthreads]; exact hcore.1, hcur, hplt, ?_, ?_⟩
    · intro i hi
      rw [show stateAt (t_yield rt).2.1 i =
          (((t_yield rt).2.1.threads).getD i dummyThread).state from rfl,
        hthreads]
      exact hcore.2.1 i hi
    · rw [show stateAt (t_yield rt).2.1 0 =
          (((t_yield rt).2.1.threads).getD 0 dummyThread).state from rfl,
        hthreads]
      exact hcore.2.2

theorem inv_yield (rt : Runtime) (h : Inv rt) : Inv (t_yield rt).2.1 := by
  obtain ⟨h4, hc, hiff, h0⟩ := h
  cases hscan : scanReady (statesOf rt) rt.current with
  | none =>
    have he : (t_yield rt).2.1 = rt := by rw [t_yield_none hscan]
    rw [he]
    exact ⟨h4, hc, hiff, h0⟩
  | some pos =>
    obtain ⟨hl, hcur, hplt, hiff', h0'⟩ :=
      inv_yield_core rt h4 hc (fun i hi hr => (hiff i hi).mp hr) h0 hscan
    refine ⟨hl, ?_, ?_, h0'⟩
    · rw [hcur]; exact hplt
    · intro i hi; rw [hcur]; exact hiff' i hi

theorem inv_return (rt : Runtime) (h : Inv rt) : Inv (t_return rt).1 := by
  obtain ⟨h4, hc, hiff, h0⟩ := h
  by_cases h0c : rt.current = 0
  · have he : (t_return rt).1 = rt := by simp [t_return, h0c]
    rw [he]
    exact ⟨h4, hc, hiff, h0⟩
  · have hclen : rt.current < rt.threads.length := by rwa [h4]
    set rtA : Runtime := { rt with threads := rt.threads.set rt.current (setState (rt.threads.getD rt.current dummyThread) State.Available) } with hrtA
    have hret : (t_return rt).1 = (t_yield rtA).2.1 := by
      simp [t_return, h0c, hrtA]
    have h4A : rtA.threads.length = 4 := by
      simp [hrtA, List.length_set, h4]
    have hcA : rtA.current < 4 := hc
    have hother : ∀ i, i ≠ rt.current → stateAt rtA i = stateAt rt i := by
      intro i hi
      show ((rtA.threads).getD i dummyThread).state = _
      simp only [hrtA]
      rw [getD_set_ne _ _ _ (fun hh => hi hh.symm)]
      rfl
    have h0R : stateAt rt 0 = State.Ready := by
      cases hv : stateAt rt 0 with
      | Available => exact absurd hv h0
      | Running =>
        exact absurd ((hiff 0 (by omega)).mp hv) (fun hh => h0c hh.symm)
      | Ready => rfl
    have h0A : stateAt rtA 0 = State.Ready := by
      rw [hother 0 (fun hh => h0c hh.symm), h0R]
    cases hscan : scanReady (statesOf rtA) rtA.current with
    | none =>
      obtain ⟨a, b, c, d, habcd⟩ := exists_four rtA.threads h4A
      have hsA : statesOf rtA = [a.state, b.state, c.state, d.state] := by
        rw [statesOf, habcd]; rfl
      have hiffn := (scanReady_none_iff4 a.state b.state c.state d.state
        ⟨rtA.current, hcA⟩).mp (by rw [← hsA]; exact hscan)
      have h0n := hiffn ⟨0, by omega⟩
      rw [← hsA, ← stateAt_eq] at h0n
      exact absurd h0A h0n
    | some pos =>
      obtain ⟨hl, hcur, hplt, hiff', h0'⟩ := inv_yield_core rtA h4A hcA
        (fun i hi hr => by
          by_cases hic : i = rt.current
          · exact hic
          · rw [hother i hic] at hr
            exact (hiff i hi).mp hr)
        (by rw [h0A]; exact fun hh => State.noConfusion hh)
        hscan
      rw [hret]
      refine ⟨hl, ?_, ?_, h0'⟩
      · rw [hcur]; exact hplt
      · intro i hi; rw [hcur]; exact hiff' i hi

theorem inv_spawn (rt rt' : Runtime) (ga sk f : Nat) (h : Inv rt)
    (hsp : spawn ga sk rt f = some rt') : Inv rt' := by
  obtain ⟨h4, hc, hiff, h0⟩ := h
  cases hfind : findAvailIdx rt.threads with
  | none => simp [spawn, hfind] at hsp
  | some i =>
    simp only [spawn, hfind, Option.some.injEq] at hsp
    obtain ⟨hlt, hAvail, _⟩ := findAvailIdx_spec rt.threads i hfind
    have hlt4 : i < 4 := by rwa [h4] at hlt
    have hcurR : stateAt rt rt.current = State.Running := (hiff _ hc).mpr rfl
    have hine : i ≠ rt.current := by
      intro he
      rw [he] at hAvail
      rw [show (rt.threads.getD rt.current dummyThread).state =
        stateAt rt rt.current from rfl, hcurR] at hAvail
      exact State.noConfusion hAvail
    subst hsp
    refine ⟨?_, ?_, ?_, ?_⟩
    · simp [List.length_set, h4]
    · exact hc
    · intro j hj
      show ((rt.threads.set i _).getD j dummyThread).state = State.Running ↔ _
      by_cases hji : j = i
      · subst hji
        rw [getD_set_self _ _ _ _ hlt]
        exact ⟨fun hh => State.noConfusion hh, fun hh => absurd hh hine⟩
      · rw [getD_set_ne _ _ _ (fun hh => hji hh.symm)]
        exact hiff j hj
    · show ((rt.threads.set i _).getD 0 dummyThread).state ≠ State.Available
      by_cases h0i : 0 = i
      · rw [← h0i] at hAvail
        exact absurd hAvail h0
      · rw [getD_set_ne _ _ _ (fun hh => h0i hh.symm)]
        exact h0

theorem inv_reachable (bases : Nat → Nat) (rt : Runtime)
    (h : Reachable bases rt) : Inv rt := by
  unfold Reachable at h
  induction h with
  | refl => exact inv_new bases
  | tail _hab hstep ih =>
    cases hstep with
    | spawnStep ga sk f rt' hsp => exact inv_spawn _ _ ga sk f ih hsp
    | yieldStep => exact inv_yield _ ih
    | returnStep => exact inv_return _ ih

/-! ### Concrete runtimes used as witnesses -/

/-- A concrete assignment of stack-buffer base addresses. -/
def basesW : Nat → Nat := fun j => 4096 * (j + 1)

/-- A freshly constructed runtime. -/
def rtW : Runtime := Runtime.new basesW

/-- `rtW` after one spawn (guard address 11, skip address 12, task 97). -/
def rtSp1 : Runtime := spawnD 11 12 rtW 97

/-- `rtSp1` after a second spawn (task 98). -/
def rtSp2 : Runtime := spawnD 11 12 rtSp1 98

/-- `rtSp2` after a third spawn (task 99): no slot remains `Available`. -/
def rtFull : Runtime := spawnD 11 12 rtSp2 99

/-! ### Claims -/

theorem spawn_found (guardA skipA f : Nat) (rt : Runtime) (i : Nat)
    (hfind : findAvailIdx rt.threads = some i) :
    spawn guardA skipA rt f = some { rt with threads := rt.threads.set i (spawnFrame guardA skipA f (rt.threads.getD i dummyThread)) } := by
  simp [spawn, hfind]

/-- C3: a `spawn` with an `Available` slot selects one, aligns the top of
its stack down to the 16-byte boundary, writes the three word-sized
entries downward — `guard` at `top - 16`, `skip` at `top - 24`, the task
entry `f` at `top - 32` — sets the saved stack pointer to the lowest of
the three words, marks the slot `Ready`, leaves every other slot and the
current index untouched, and executes nothing. -/
theorem c3_spawn_frame_layout (guardA skipA f : Nat) (rt : Runtime)
    (i : Nat) (hfind : findAvailIdx rt.threads = some i)
    (hsz : 32 ≤ align16 ((rt.threads.getD i dummyThread).stackBase + (rt.threads.getD i dummyThread).stackSize)) :
    ∃ rt', spawn guardA skipA rt f = some rt' ∧
      rt'.current = rt.current ∧
      (∀ j, j ≠ i →
        rt'.threads.getD j dummyThread = rt.threads.getD j dummyThread) ∧
      (rt'.threads.getD i dummyThread).id =
        (rt.threads.getD i dummyThread).id ∧
      (rt'.threads.getD i dummyThread).stackBase =
        (rt.threads.getD i dummyThread).stackBase ∧
      (rt'.threads.getD i dummyThread).stackSize =
        (rt.threads.getD i dummyThread).stackSize ∧
      (rt'.threads.getD i dummyThread).state = State.Ready ∧
      (rt'.threads.getD i dummyThread).ctx.rsp = align16 ((rt.threads.getD i dummyThread).stackBase + (rt.threads.getD i dummyThread).stackSize) - 32 ∧
      (rt'.threads.getD i dummyThread).stackWrites = [(align16 ((rt.threads.getD i dummyThread).stackBase + (rt.threads.getD i dummyThread).stackSize) - 16, guardA), (align16 ((rt.threads.getD i dummyThread).stackBase + (rt.threads.getD i dummyThread).stackSize) - 24, skipA), (align16 ((rt.threads.getD i dummyThread).stackBase + (rt.threads.getD i dummyThread).stackSize) - 32, f)] ++ (rt.threads.getD i dummyThread).stackWrites ∧
      16 ∣ align16 ((rt.threads.getD i dummyThread).stackBase + (rt.threads.getD i dummyThread).stackSize) ∧
      align16 ((rt.threads.getD i dummyThread).stackBase + (rt.threads.getD i dummyThread).stackSize) ≤ (rt.threads.getD i dummyThread).stackBase + (rt.threads.getD i dummyThread).stackSize ∧
      (rt.threads.getD i dummyThread).stackBase + (rt.threads.getD i dummyThread).stackSize < align16 ((rt.threads.getD i dummyThread).stackBase + (rt.threads.getD i dummyThread).stackSize) + 16 ∧
      align16 ((rt.threads.getD i dummyThread).stackBase + (rt.threads.getD i dummyThread).stackSize) - 32 < align16 ((rt.threads.getD i dummyThread).stackBase + (rt.threads.getD i dummyThread).stackSize) - 24 ∧
      align16 ((rt.threads.getD i dummyThread).stackBase + (rt.threads.getD i dummyThread).stackSize) - 24 < align16 ((rt.threads.getD i dummyThread).stackBase + (rt.threads.getD i dummyThread).stackSize) - 16 ∧
      align16 ((rt.threads.getD i dummyThread).stackBase + (rt.threads.getD i dummyThread).stackSize) - 16 < align16 ((rt.threads.getD i dummyThread).stackBase + (rt.threads.getD i dummyThread).stackSize) := by
  obtain ⟨hlt, -, -⟩ := findAvailIdx_spec rt.threads i hfind
  have hgi : ({ rt with threads := rt.threads.set i (spawnFrame guardA skipA f (rt.threads.getD i dummyThread)) } : Runtime).threads.getD i dummyThread = spawnFrame guardA skipA f (rt.threads.getD i dummyThread) :=
    getD_set_self _ _ _ _ hlt
  refine ⟨_, spawn_found guardA skipA f rt i hfind, rfl, ?_, ?_, ?_, ?_, ?_,
    ?_, ?_, ?_, ?_, ?_, ?_, ?_, ?_⟩
  · intro j hj
    exact getD_set_ne _ _ _ (fun hh => hj hh.symm)
  · rw [hgi]; rfl
  · rw [hgi]; rfl
  · rw [hgi]; rfl
  · rw [hgi]; rfl
  · rw [hgi]; rfl
  · rw [hgi]; rfl
  · exact ⟨((rt.threads.getD i dummyThread).stackBase + (rt.threads.getD i dummyThread).stackSize) / 16, by unfold align16; omega⟩
  · unfold align16; omega
  · unfold align16; omega
  · omega
  · omega
  · omega

/-- Witness for C3: in the fresh runtime `rtW` the first `Available` slot
is slot 1, and the spawn succeeds with an aligned frame. -/
theorem c3_witness :
    findAvailIdx rtW.threads = some 1 ∧
      32 ≤ align16 ((rtW.threads.getD 1 dummyThread).stackBase + (rtW.threads.getD 1 dummyThread).stackSize) ∧
      ∃ rt', spawn 11 12 rtW 97 = some rt' ∧
        (rt'.threads.getD 1 dummyThread).state = State.Ready := by
  refine ⟨by decide, by decide, ?_⟩
  obtain ⟨rt', hsp, -, -, -, -, -, hready, -⟩ :=
    c3_spawn_frame_layout 11 12 97 rtW 1 (by decide) (by decide)
  exact ⟨rt', hsp, hready⟩

/-- C4: invoking `spawn` when no slot is `Available` hits the
`expect("not available thread.")` panic: the search for an `Available`
slot fails before any stack write or context mutation is reached, so the
process aborts (modelled by `none`) with every slot, snapshot and the
current index exactly as before the call. -/
theorem c4_spawn_full_pool_panics (guardA skipA f : Nat) (rt : Runtime)
    (h : ∀ t ∈ rt.threads, t.state ≠ State.Available) :
    spawn guardA skipA rt f = none := by
  rw [spawn, findAvailIdx_eq_none h]

/-- Witness for C4: after three spawns every slot is `Running` or `Ready`,
and a fourth spawn panics. -/
theorem c4_witness :
    (∀ t ∈ rtFull.threads, t.state ≠ State.Available) ∧
      spawn 11 12 rtFull 100 = none := by
  refine ⟨by decide, ?_⟩
  exact c4_spawn_full_pool_panics 11 12 100 rtFull (by decide)

/-- C9: `Runtime::new` builds the pool with slot 0 pre-marked `Running`,
standing for the caller context (default zero register snapshot and
no frame written into its stack — `stackWrites = []`), slots `1..3`
`Available` with freshly allocated `DEFAULT_STACK_SIZE` stacks, and the
current index 0. -/
theorem c9_runtime_new_shape (bases : Nat → Nat) :
    (Runtime.new bases).current = 0 ∧
      (Runtime.new bases).threads.length = MAX_THREADS ∧
      (Runtime.new bases).threads.getD 0 dummyThread =
        { id := 0, stackBase := bases 0, stackSize := DEFAULT_STACK_SIZE, stackWrites := [], ctx := ThreadContext.zero, state := State.Running } ∧
      ∀ i, 1 ≤ i → i < MAX_THREADS →
        (Runtime.new bases).threads.getD i dummyThread =
          { id := i, stackBase := bases i, stackSize := DEFAULT_STACK_SIZE, stackWrites := [], ctx := ThreadContext.zero, state := State.Available } := by
  have hr : List.range' 1 (MAX_THREADS - 1) = [1, 2, 3] := by decide
  refine ⟨rfl, by simp [Runtime.new, hr, MAX_THREADS], by simp [Runtime.new], ?_⟩
  intro i h1 h2
  have h2' : i < 4 := h2
  interval_cases i
  · simp [Runtime.new, hr, Thread.new]
  · simp [Runtime.new, hr, Thread.new]
  · simp [Runtime.new, hr, Thread.new]

/-- Witness for C9 at a concrete base-address assignment. -/
theorem c9_witness :
    (Runtime.new basesW).current = 0 ∧
      (Runtime.new basesW).threads.getD 2 dummyThread =
        { id := 2, stackBase := basesW 2, stackSize := DEFAULT_STACK_SIZE, stackWrites := [], ctx := ThreadContext.zero, state := State.Available } :=
  ⟨(c9_runtime_new_shape basesW).1,
   (c9_runtime_new_shape basesW).2.2.2 2 (by decide) (by decide)⟩

/-- C10: `spawn` always selects the `Available` slot with the lowest index
(the `find` iterates in slot order); in particular the three spawns
performed after construction occupy slots 1, 2, 3 in that order. -/
theorem c10_spawn_lowest_index :
    (∀ (rt : Runtime) (i : Nat), findAvailIdx rt.threads = some i →
      stateAt rt i = State.Available ∧
        ∀ j, j < i → stateAt rt j ≠ State.Available) ∧
      findAvailIdx rtW.threads = some 1 ∧
      findAvailIdx rtSp1.threads = some 2 ∧
      findAvailIdx rtSp2.threads = some 3 := by
  refine ⟨?_, by decide, by decide, by decide⟩
  intro rt i h
  obtain ⟨-, hst, hmin⟩ := findAvailIdx_spec rt.threads i h
  exact ⟨hst, hmin⟩

/-- Witness for C10 at the fresh runtime. -/
theorem c10_witness :
    findAvailIdx rtW.threads = some 1 ∧
      stateAt rtW 1 = State.Available ∧
      ∀ j, j < 1 → stateAt rtW j ≠ State.Available := by
  refine ⟨by decide, ?_, ?_⟩
  · exact (c10_spawn_lowest_index.1 rtW 1 (by decide)).1
  · exact (c10_spawn_lowest_index.1 rtW 1 (by decide)).2

/-- C1: whenever `t_yield` is invoked (at every invocation site the current
slot is `Running` — from `run` or `yield_thread` — or `Available` — from
`t_return` — and never `Ready`, which the hypothesis `hnr` records), it
scans circularly, starting just past the current slot index, for the first
`Ready` slot; if the scan returns to the current index without finding one
it reports `false`, performing no switch and no state change; otherwise it
demotes the current slot from `Running` to `Ready` unless that slot is
already `Available`, promotes the found slot to `Running`, updates the
current index to the found slot, and invokes the context switch from the
snapshot of the old slot (index `rt.current`) to the new one (index `pos`). -/
theorem c1_yield_round_robin (rt : Runtime) (h4 : rt.threads.length = 4)
    (hc : rt.current < 4) (hnr : stateAt rt rt.current ≠ State.Ready) :
    (scanJustPastSpec (statesOf rt) rt.current = none →
      t_yield rt = (false, rt, none)) ∧
    ∀ pos, scanJustPastSpec (statesOf rt) rt.current = some pos →
      t_yield rt = (true, ⟨(if (rt.threads.getD rt.current dummyThread).state ≠ State.Available then rt.threads.set rt.current (setState (rt.threads.getD rt.current dummyThread) State.Ready) else rt.threads).set pos (setState ((if (rt.threads.getD rt.current dummyThread).state ≠ State.Available then rt.threads.set rt.current (setState (rt.threads.getD rt.current dummyThread) State.Ready) else rt.threads).getD pos dummyThread) State.Running), pos⟩, some (rt.current, pos)) := by
  obtain ⟨t0, t1, t2, t3, ht⟩ := exists_four rt.threads h4
  have hs : statesOf rt = [t0.state, t1.state, t2.state, t3.state] := by
    rw [statesOf, ht]; rfl
  have heq : scanReady (statesOf rt) rt.current =
      scanJustPastSpec (statesOf rt) rt.current := by
    rw [hs]
    exact scanReady_eq_spec4 t0.state t1.state t2.state t3.state
      ⟨rt.current, hc⟩ (by rw [← hs, ← stateAt_eq]; exact hnr)
  constructor
  · intro hnone
    exact t_yield_none (heq.trans hnone)
  · intro pos hpos
    have hscan : scanReady (statesOf rt) rt.current = some pos :=
      heq.trans hpos
    obtain ⟨hthreads, hcur, hbool, hev⟩ := t_yield_found rt pos hscan
    have hlen : (t_yield rt).2.1.threads.length = 4 := (t_yield_wf rt h4 hc).1
    have hb : (t_yield rt).1 = true := by rw [hbool, hlen]; rfl
    have h21 : (t_yield rt).2.1 = ⟨(if (rt.threads.getD rt.current dummyThread).state ≠ State.Available then rt.threads.set rt.current (setState (rt.threads.getD rt.current dummyThread) State.Ready) else rt.threads).set pos (setState ((if (rt.threads.getD rt.current dummyThread).state ≠ State.Available then rt.threads.set rt.current (setState (rt.threads.getD rt.current dummyThread) State.Ready) else rt.threads).getD pos dummyThread) State.Running), pos⟩ := by
      calc (t_yield rt).2.1
          = ⟨(t_yield rt).2.1.threads, (t_yield rt).2.1.current⟩ := rfl
        _ = _ := by rw [hthreads, hcur]
    rw [show t_yield rt =
      ((t_yield rt).1, (t_yield rt).2.1, (t_yield rt).2.2) from rfl,
      hb, h21, hev]

/-- Witness for C1: in `rtSp1` (slot 0 `Running`, slot 1 `Ready`), the
spec scan finds slot 1 and `t_yield` switches from slot 0 to slot 1. -/
theorem c1_witness :
    rtSp1.threads.length = 4 ∧ stateAt rtSp1 rtSp1.current ≠ State.Ready ∧
      scanJustPastSpec (statesOf rtSp1) rtSp1.current = some 1 ∧
      (t_yield rtSp1).2.2 = some (0, 1) := by
  refine ⟨by decide, by decide, by decide, ?_⟩
  have h := (c1_yield_round_robin rtSp1 (by decide) (by decide)
    (by decide)).2 1 (by decide)
  rw [h]
  decide

/-- C2: `run` is `while t_yield() {}; exit(0)`.  (i) The loop guard
returned by `t_yield` is `false` exactly when no slot is `Ready` (when a
switch occurs the literal predicate `threads.len() > 0` is `true`);
(ii) whenever a `Ready` slot other than the current one exists, the guard
is `true`, so `run` never exits while a `Ready` slot remains; (iii) the
loop can only terminate with exit status 0, in a state with no `Ready`
slot. -/
theorem c2_run_exits_iff_no_ready :
    (∀ rt : Runtime, rt.threads.length = 4 → rt.current < 4 →
      ((t_yield rt).1 = false ↔
        ∀ i, i < rt.threads.length → stateAt rt i ≠ State.Ready)) ∧
    (∀ rt : Runtime, rt.threads.length = 4 → rt.current < 4 →
      ∀ i, i < rt.threads.length → i ≠ rt.current →
        stateAt rt i = State.Ready → (t_yield rt).1 = true) ∧
    (∀ (fuel : Nat) (rt : Runtime), rt.threads.length = 4 → rt.current < 4 →
      ∀ code rtF, runLoop fuel rt = some (code, rtF) →
        code = 0 ∧
          ∀ i, i < rtF.threads.length → stateAt rtF i ≠ State.Ready) := by
  refine ⟨fun rt h4 hc => t_yield_false_iff rt h4 hc, ?_, ?_⟩
  · intro rt h4 hc i hi _hne hR
    by_contra hb
    have hfalse : (t_yield rt).1 = false := by
      cases hby : (t_yield rt).1
      · rfl
      · exact absurd hby hb
    exact (t_yield_false_iff rt h4 hc).mp hfalse i hi hR
  · intro fuel
    induction fuel with
    | zero =>
      intro rt h4 hc code rtF h
      simp [runLoop] at h
    | succ n ih =>
      intro rt h4 hc code rtF h
      rw [runLoop] at h
      rcases hty : t_yield rt with ⟨b, rt', ev⟩
      rw [hty] at h
      cases b
      · have hfeq : t_yield rt = (false, rt, none) :=
          t_yield_false_eq rt h4 hc (by rw [hty])
        rw [hfeq] at hty
        have hrt' : rt = rt' := congrArg (fun p => p.2.1) hty
        simp only [] at h
        have hpair : (0, rt') = (code, rtF) := by simpa using h
        have hcode : code = 0 := (Prod.mk.injEq _ _ _ _ ▸ hpair).1.symm
        have hrtF : rtF = rt' := ((Prod.mk.injEq _ _ _ _ ▸ hpair).2).symm
        subst hrtF
        rw [← hrt']
        exact ⟨hcode,
          (t_yield_false_iff rt h4 hc).mp (by rw [hfeq])⟩
      · have hwf := t_yield_wf rt h4 hc
        rw [hty] at hwf
        exact ih rt' hwf.1 hwf.2 code rtF h

/-- Witness for C2: in the fresh runtime no slot is `Ready`, so the guard
is `false` and a one-step `runLoop` exits with status 0. -/
theorem c2_witness :
    (t_yield rtW).1 = false ∧
      (0 = 0 ∧ ∀ i, i < rtW.threads.length → stateAt rtW i ≠ State.Ready) := by
  constructor
  · exact (c2_run_exits_iff_no_ready.1 rtW (by decide) (by decide)).mpr
      (by decide)
  · exact c2_run_exits_iff_no_ready.2.2 1 rtW (by decide) (by decide) 0 rtW
      (by decide)

/-- C5: in every scheduler state reachable from construction by any
sequence of spawn, yield and recycle steps (each atomic), the slot at the
current index of the scheduler is `Running` and no other slot is — exactly one
slot runs and its index is the current pointer. -/
theorem c5_unique_running (bases : Nat → Nat) (rt : Runtime)
    (h : Reachable bases rt) :
    stateAt rt rt.current = State.Running ∧
      ∀ i, i < rt.threads.length → stateAt rt i = State.Running →
        i = rt.current := by
  obtain ⟨h4, hc, hiff, _h0⟩ := inv_reachable bases rt h
  refine ⟨(hiff _ hc).mpr rfl, ?_⟩
  intro i hi hr
  exact (hiff i (by rwa [h4] at hi)).mp hr

/-- Witness for C5: the freshly constructed runtime is reachable. -/
theorem c5_witness :
    stateAt rtW rtW.current = State.Running ∧
      ∀ i, i < rtW.threads.length → stateAt rtW i = State.Running →
        i = rtW.current :=
  c5_unique_running basesW rtW Relation.ReflTransGen.refl

/-- Counterexample to C6: in the pool of size `MAX_THREADS = 4` with all
three spawned tasks returning immediately without yielding, the run
executes the context-switch primitive 4 times — three switches entering
the spawned tasks plus a final switch back to slot 0 — and then exits with
status 0; the claimed count `N - 1 = 3` is off by one. -/
theorem c6_counterexample :
    simRun 32 rtFull 0 = some (0, 4) ∧ ¬(4 = MAX_THREADS - 1) :=
  ⟨by decide, by decide⟩

/-- C6 amended: a pool of size `N = MAX_THREADS = 4` whose `N - 1` spawned
tasks return immediately without yielding performs exactly `N` context
switches before exiting with status 0: `N - 1` switches entering each
spawned task once, in slot order, and one final switch back to the caller
slot 0 (whose `t_yield` then finds no `Ready` slot and `run` exits). -/
theorem c6_exhaustion_switch_count :
    simRun 32 rtFull 0 = some (0, MAX_THREADS) := by
  decide

/-- Counterexample to C7: in the reachable state `rtW` the current slot
(slot 0) is the sole active slot and no other slot is `Ready`.  `t_yield`
then invokes no context switch at all — in particular not the no-op
self-switch `some (current, current)` that the claim describes — and
performs no demotion or promotion: it returns `false` with the state
untouched. -/
theorem c7_counterexample :
    t_yield rtW = (false, rtW, none) ∧
      (t_yield rtW).2.2 ≠ some (rtW.current, rtW.current) :=
  ⟨by decide, by decide⟩

/-- C7 amended: when the sole remaining active task calls yield and no
other slot is `Ready`, the scan fails and `t_yield` returns `false`
immediately: no transient demotion/promotion happens and the switch
primitive is not invoked; every slot state, the current index and every
snapshot are unchanged, and the task simply continues running. -/
theorem c7_sole_active_yield_noop (rt : Runtime)
    (h4 : rt.threads.length = 4) (hc : rt.current < 4)
    (hrun : stateAt rt rt.current = State.Running)
    (hno : ∀ i, i < rt.threads.length → i ≠ rt.current →
      stateAt rt i ≠ State.Ready) :
    t_yield rt = (false, rt, none) := by
  have hall : ∀ i, i < rt.threads.length → stateAt rt i ≠ State.Ready := by
    intro i hi
    by_cases hic : i = rt.current
    · rw [hic, hrun]
      exact fun hh => State.noConfusion hh
    · exact hno i hi hic
  exact t_yield_false_eq rt h4 hc ((t_yield_false_iff rt h4 hc).mpr hall)

/-- Witness for the amended C7 at the reachable sole-active state `rtW`. -/
theorem c7_witness :
    rtW.threads.length = 4 ∧ stateAt rtW rtW.current = State.Running ∧
      t_yield rtW = (false, rtW, none) := by
  refine ⟨by decide, by decide, ?_⟩
  exact c7_sole_active_yield_noop rtW (by decide) (by decide) (by decide)
    (by decide)

/-- C8: `switch` stores `rsp` and the six callee-saved registers
`r15, r14, r13, r12, rbx, rbp` into the outgoing snapshot (at `rdi`) and
loads the same set from the incoming snapshot (at `rsi`), at byte offsets
`0x00` through `0x30` in steps of 8 that exactly match the declared field
order and `#[repr(C)]` layout of `ThreadContext` (seven 8-byte words:
field `i` at offset `8 * i`), then transfers control by a return-style
jump to the address at the top of the restored stack (popping it:
the final `rsp` is the restored one plus 8). -/
theorem c8_switch_layout_and_transfer :
    (switchSaveList = ctxFieldOrder.map (fun r => (ctxOffset r, r)) ∧
      switchRestoreList = ctxFieldOrder.map (fun r => (ctxOffset r, r)) ∧
      ctxFieldOrder.length = 7 ∧
      (∀ r : Reg, ctxOffset r = 8 * ctxFieldOrder.indexOf r) ∧
      ∀ c : ThreadContext,
        ctxFieldOrder.map (ctxGet c) =
          [c.rsp, c.r15, c.r14, c.r13, c.r12, c.rbx, c.rbp]) ∧
    ∀ (regs : ThreadContext) (mem : Nat → Nat) (rdi rsi : Nat),
      (∀ r : Reg,
        (switchRun regs mem rdi rsi).2.1 (rdi + ctxOffset r) =
          ctxGet regs r) ∧
      (switchRun regs mem rdi rsi).1.r15 =
        (switchRun regs mem rdi rsi).2.1 (rsi + ctxOffset Reg.r15) ∧
      (switchRun regs mem rdi rsi).1.r14 =
        (switchRun regs mem rdi rsi).2.1 (rsi + ctxOffset Reg.r14) ∧
      (switchRun regs mem rdi rsi).1.r13 =
        (switchRun regs mem rdi rsi).2.1 (rsi + ctxOffset Reg.r13) ∧
      (switchRun regs mem rdi rsi).1.r12 =
        (switchRun regs mem rdi rsi).2.1 (rsi + ctxOffset Reg.r12) ∧
      (switchRun regs mem rdi rsi).1.rbx =
        (switchRun regs mem rdi rsi).2.1 (rsi + ctxOffset Reg.rbx) ∧
      (switchRun regs mem rdi rsi).1.rbp =
        (switchRun regs mem rdi rsi).2.1 (rsi + ctxOffset Reg.rbp) ∧
      (switchRun regs mem rdi rsi).1.rsp =
        (switchRun regs mem rdi rsi).2.1 (rsi + ctxOffset Reg.rsp) + 8 ∧
      (switchRun regs mem rdi rsi).2.2 =
        (switchRun regs mem rdi rsi).2.1
          ((switchRun regs mem rdi rsi).2.1 (rsi + ctxOffset Reg.rsp)) := by
  refine ⟨⟨by decide, by decide, by decide, by decide, fun c => rfl⟩, ?_⟩
  intro regs mem rdi rsi
  refine ⟨?_, rfl, rfl, rfl, rfl, rfl, rfl, rfl, rfl⟩
  intro r
  cases r <;>
    simp only [switchRun, switchSaveList, List.foldl_cons, List.foldl_nil,
      writeWord, ctxGet, ctxOffset] <;>
    split_ifs <;> first | rfl | omega

end GreenThreads
